import Mathlib

/-!
Verification of the anvil node core against its specification.

This file shallowly embeds the parts of the code base that the checked
claims are about:

* the IPC JSON-RPC framing codec (`JsonRpcCodec::decode` in
  `anvil/server/src/ipc.rs`),
* the `sequence` params (de)serializer and the `eth_feeHistory` envelope
  decoding (`anvil/anvil-core/src/eth/mod.rs`),
* the two miner modes (`anvil/src/eth/miner.rs`),
* the `Db` trait default methods and the `CacheDB` overlay impl
  (`anvil/src/eth/backend/db.rs`).

Bytes are modelled as `Nat` values below 256, machine integers as `Nat`
or `Int` (the Rust `depth` counter is an `i32`, modelled as `Int`; the
byte buffers involved are far below the point where `i32` overflow could
occur).
-/

namespace Ipc

/-- The accumulator state of the single left-to-right scan performed by
`JsonRpcCodec::decode`: bracket depth, whether the scanner is inside a
quoted JSON string, whether the previous byte opened an escape, the index
at which the current frame candidate started, and the number of
whitespace bytes seen so far. Mirrors the local variables of the Rust
loop. -/
structure ScanState where
  depth : Int
  in_str : Bool
  is_escaped : Bool
  start_idx : Nat
  whitespaces : Nat
deriving Repr, DecidableEq

/-- `is_whitespace` from `JsonRpcCodec::decode`: CR, LF, space, tab. -/
def is_whitespace (b : Nat) : Bool :=
  b == 0x0D || b == 0x0A || b == 0x20 || b == 0x09

/-- One iteration of the scan loop body of `JsonRpcCodec::decode` on byte
`b` at index `idx` (brace/bracket depth tracking, string and escape
tracking, whitespace counting), excluding the emission check. -/
def scanStep (st : ScanState) (idx : Nat) (b : Nat) : ScanState :=
  let st1 :=
    if (b == 123 || b == 91) && !st.in_str then
      if st.depth == 0 then
        { st with start_idx := idx, depth := st.depth + 1 }
      else
        { st with depth := st.depth + 1 }
    else if (b == 125 || b == 93) && !st.in_str then
      { st with depth := st.depth - 1 }
    else if b == 34 && !st.is_escaped then
      { st with in_str := !st.in_str }
    else if is_whitespace b then
      { st with whitespaces := st.whitespaces + 1 }
    else st
  if b == 92 && !st.is_escaped && st1.in_str then
    { st1 with is_escaped := true }
  else
    { st1 with is_escaped := false }

/-- The emission test of `JsonRpcCodec::decode`, checked after each
iteration: `depth == 0 && idx != start_idx && idx - start_idx + 1 >
whitespaces`. -/
def emitCheck (idx : Nat) (st : ScanState) : Bool :=
  st.depth == 0 && idx != st.start_idx &&
    decide (st.whitespaces < idx - st.start_idx + 1)

/-- The initial scan state of `JsonRpcCodec::decode`. -/
def initState : ScanState := ⟨0, false, false, 0, 0⟩

/-- The scan loop of `JsonRpcCodec::decode`, returning the index at which
a frame is emitted (the `idx` of the `buf.split_to(idx + 1)` call), if
any. -/
def findEmitGo : List Nat → Nat → ScanState → Option Nat
  | [], _, _ => none
  | b :: rest, idx, st =>
    let st1 := scanStep st idx b
    if emitCheck idx st1 then some idx
    else findEmitGo rest (idx + 1) st1

/-- Index at which `JsonRpcCodec::decode` emits a frame from `buf`. -/
def findEmit (buf : List Nat) : Option Nat := findEmitGo buf 0 initState

/-- Is `b` a UTF-8 continuation byte (`0x80..=0xBF`)? -/
def isCont (b : Nat) : Bool := 0x80 ≤ b && b ≤ 0xBF

/-- Standard UTF-8 validity of a byte sequence, as checked by Rust's
`String::from_utf8`: rejects overlong encodings, surrogates and code
points above `U+10FFFF`. -/
def validUtf8 : List Nat → Bool
  | [] => true
  | b :: rest =>
    if b ≤ 0x7F then validUtf8 rest
    else if 0xC2 ≤ b && b ≤ 0xDF then
      match rest with
      | c1 :: rest1 => isCont c1 && validUtf8 rest1
      | [] => false
    else if b == 0xE0 then
      match rest with
      | c1 :: c2 :: rest1 =>
        (0xA0 ≤ c1 && c1 ≤ 0xBF) && isCont c2 && validUtf8 rest1
      | _ => false
    else if (0xE1 ≤ b && b ≤ 0xEC) || b == 0xEE || b == 0xEF then
      match rest with
      | c1 :: c2 :: rest1 => isCont c1 && isCont c2 && validUtf8 rest1
      | _ => false
    else if b == 0xED then
      match rest with
      | c1 :: c2 :: rest1 =>
        (0x80 ≤ c1 && c1 ≤ 0x9F) && isCont c2 && validUtf8 rest1
      | _ => false
    else if b == 0xF0 then
      match rest with
      | c1 :: c2 :: c3 :: rest1 =>
        (0x90 ≤ c1 && c1 ≤ 0xBF) && isCont c2 && isCont c3 && validUtf8 rest1
      | _ => false
    else if 0xF1 ≤ b && b ≤ 0xF3 then
      match rest with
      | c1 :: c2 :: c3 :: rest1 =>
        isCont c1 && isCont c2 && isCont c3 && validUtf8 rest1
      | _ => false
    else if b == 0xF4 then
      match rest with
      | c1 :: c2 :: c3 :: rest1 =>
        (0x80 ≤ c1 && c1 ≤ 0x8F) && isCont c2 && isCont c3 && validUtf8 rest1
      | _ => false
    else false

/-- `JsonRpcCodec::decode` on buffer `buf`: the scan loop finds the
emission index; the frame bytes are split off the front of the buffer
(`buf.split_to(idx + 1)`); `String::from_utf8` success yields
`Ok(Some(frame))`, failure yields `Ok(None)` (note: not `Err`); when no
emission index exists the loop falls through to `Ok(None)` with the
buffer untouched. The result pairs the Rust return value (`Except Unit`
standing for `io::Result`, with `Unit` for `io::Error`) with the buffer
left after the call. -/
def decode (buf : List Nat) : Except Unit (Option (List Nat)) × List Nat :=
  match findEmit buf with
  | some i =>
    let bts := buf.take (i + 1)
    let rest := buf.drop (i + 1)
    if validUtf8 bts then (Except.ok (some bts), rest)
    else (Except.ok none, rest)
  | none => (Except.ok none, buf)

/-- Declarative counterpart of the scan loop used to characterise the
emission index: processing a list of bytes starting at index `idx` from
state `st`. -/
def stateAfterPre : ScanState → Nat → List Nat → ScanState
  | st, _, [] => st
  | st, idx, b :: rest => stateAfterPre (scanStep st idx b) (idx + 1) rest

/-- The scan state after the codec has processed bytes `0..=i` of `buf`. -/
def stateAt (buf : List Nat) (i : Nat) : ScanState :=
  stateAfterPre initState 0 (buf.take (i + 1))

/-- Declarative emission condition at index `i` of `buf`: the Rust
emission test evaluated on the scan state after byte `i`. -/
def emitCond (buf : List Nat) (i : Nat) : Bool :=
  emitCheck i (stateAt buf i)

end Ipc

namespace EthSerde

/-- JSON values, as passed to the serde deserializers of
`anvil-core/src/eth/mod.rs`. Numbers are restricted to integers: every
numeric literal occurring in the checked claims is an integer, and
parsing an integer JSON numeral below `2^53` into an `f64` or `u64` is
exact. -/
inductive Json where
  | null : Json
  | bool (b : Bool) : Json
  | num (n : Int) : Json
  | str (s : String) : Json
  | arr (xs : List Json) : Json
  | obj (fields : List (String × Json)) : Json

/-- Deserialize every element of a list with `inner`, stopping at the
first error (the effect of `serde` sequence traversal in `Except`). -/
def mapExcept {α : Type} (inner : Json → Except String α) :
    List Json → Except String (List α)
  | [] => Except.ok []
  | x :: xs =>
    match inner x with
    | Except.error e => Except.error e
    | Except.ok v =>
      match mapExcept inner xs with
      | Except.error e => Except.error e
      | Except.ok vs => Except.ok (v :: vs)

/-- `Vec::<T>::deserialize`: requires a JSON array and deserializes every
element with the inner deserializer (`serde_json` semantics). -/
def vec_deserialize {α : Type} (inner : Json → Except String α) :
    Json → Except String (List α)
  | Json.arr xs => mapExcept inner xs
  | _ => Except.error "invalid type: expected a sequence"

/-- `sequence::deserialize` from `anvil-core/src/eth/mod.rs`: deserialize
a `Vec<T>`, reject unless its length is exactly 1, and return the single
element. -/
def sequence_deserialize {α : Type} (inner : Json → Except String α)
    (d : Json) : Except String α :=
  match vec_deserialize inner d with
  | Except.error e => Except.error e
  | Except.ok [x] => Except.ok x
  | Except.ok _ => Except.error "expected params sequence with length 1"

/-- Value of one hex digit character. -/
def hexDigitVal (c : Char) : Option Nat :=
  if '0' ≤ c && c ≤ '9' then some (c.toNat - 48)
  else if 'a' ≤ c && c ≤ 'f' then some (c.toNat - 87)
  else if 'A' ≤ c && c ≤ 'F' then some (c.toNat - 55)
  else none

/-- Accumulate a hex digit string into a number; `none` on a non-hex
character. -/
def parseHexNat (cs : List Char) : Option Nat :=
  cs.foldl
    (fun acc c =>
      match acc, hexDigitVal c with
      | some n, some d => some (n * 16 + d)
      | _, _ => none)
    (some 0)

/-- `U256::deserialize` (`ethers_core` / `primitive-types` serde): accepts
a `0x`-prefixed hex string of at most 64 digits; any other JSON value is
a type error. -/
def u256_deserialize (j : Json) : Except String Nat :=
  match j with
  | Json.str s =>
    match s.toList with
    | '0' :: 'x' :: rest =>
      if rest.isEmpty then Except.error "empty hex quantity"
      else if 64 < rest.length then Except.error "number too large to fit in target type"
      else
        match parseHexNat rest with
        | some n => Except.ok n
        | none => Except.error "invalid hex character"
    | _ => Except.error "missing 0x prefix"
  | _ => Except.error "invalid type: expected a hex string"

/-- `u64::deserialize`: accepts an integer JSON number in `[0, 2^64)`. -/
def u64_deserialize (j : Json) : Except String Nat :=
  match j with
  | Json.num n =>
    if 0 ≤ n ∧ n < 18446744073709551616 then Except.ok n.toNat
    else Except.error "invalid value: integer out of range of u64"
  | _ => Except.error "invalid type: expected an integer"

/-- `deserialize_number` from `anvil-core/src/eth/mod.rs`: the untagged
`Numeric` enum tries the `U256` representation first and falls back to
`u64`, converting to `U256`. -/
def deserialize_number (j : Json) : Except String Nat :=
  match u256_deserialize j with
  | Except.ok n => Except.ok n
  | Except.error _ =>
    (u64_deserialize j).mapError
      (fun _ => "data did not match any variant of untagged enum Numeric")

/-- Parse a hex digit string of even length into bytes. -/
def parseHexBytes : List Char → Option (List Nat)
  | [] => some []
  | c1 :: c2 :: rest =>
    match hexDigitVal c1, hexDigitVal c2, parseHexBytes rest with
    | some d1, some d2, some bs => some ((d1 * 16 + d2) :: bs)
    | _, _, _ => none
  | _ => none

/-- `Bytes::deserialize` (`ethers_core`): a `0x`-prefixed hex string of
even length; any other JSON value is a type error. -/
def bytes_deserialize (j : Json) : Except String (List Nat) :=
  match j with
  | Json.str s =>
    match s.toList with
    | '0' :: 'x' :: rest =>
      match parseHexBytes rest with
      | some bs => Except.ok bs
      | none => Except.error "invalid hex"
    | _ => Except.error "missing 0x prefix"
  | _ => Except.error "invalid type: expected a hex string"

/-- Deserialization of the `eth_sendRawTransaction` `params` content into
the `EthRequest::EthSendRawTransaction(Bytes)` payload: the variant is
annotated `#[serde(with = "sequence")]`, so its content goes through
`sequence::deserialize` with the `Bytes` deserializer inside. -/
def eth_sendRawTransaction_params (j : Json) : Except String (List Nat) :=
  sequence_deserialize bytes_deserialize j

/-- `ethers_core::types::BlockNumber`. -/
inductive BlockNumber where
  | Latest : BlockNumber
  | Earliest : BlockNumber
  | Pending : BlockNumber
  | Number (n : Nat) : BlockNumber
deriving Repr, DecidableEq

/-- `BlockNumber::deserialize`: the tags `latest`, `earliest`, `pending`
or a hex block quantity. -/
def blockNumber_deserialize (j : Json) : Except String BlockNumber :=
  match j with
  | Json.str s =>
    if s = "latest" then Except.ok BlockNumber.Latest
    else if s = "earliest" then Except.ok BlockNumber.Earliest
    else if s = "pending" then Except.ok BlockNumber.Pending
    else
      match u256_deserialize (Json.str s) with
      | Except.ok n => Except.ok (BlockNumber.Number n)
      | Except.error e => Except.error e
  | _ => Except.error "invalid type: expected a block tag string"

/-- `f64::deserialize` restricted to the integer JSON numerals appearing
in the claims (integers of this magnitude convert to `f64` exactly). -/
def f64_deserialize (j : Json) : Except String Int :=
  match j with
  | Json.num n => Except.ok n
  | _ => Except.error "invalid type: expected a number"

/-- The typed payload of the `EthRequest::EthFeeHistory` variant:
`U256` count, newest block, percentiles (`Vec<f64>`). -/
structure FeeHistoryParams where
  count : Nat
  newest : BlockNumber
  percentiles : List Int
deriving Repr, DecidableEq

/-- Deserialization of the `eth_feeHistory` `params` content into
`EthRequest::EthFeeHistory(count, newest, percentiles)`: a tuple variant
whose first field goes through `deserialize_number` and whose third field
is `#[serde(default)]`, so a two-element params array leaves the
percentiles empty. -/
def eth_feeHistory_params (j : Json) : Except String FeeHistoryParams :=
  match j with
  | Json.arr [a, b] => do
    let count ← deserialize_number a
    let newest ← blockNumber_deserialize b
    Except.ok ⟨count, newest, []⟩
  | Json.arr [a, b, c] => do
    let count ← deserialize_number a
    let newest ← blockNumber_deserialize b
    let percentiles ← vec_deserialize f64_deserialize c
    Except.ok ⟨count, newest, percentiles⟩
  | _ => Except.error "invalid params for eth_feeHistory"

end EthSerde

namespace Miner

/-- `std::task::Poll`. -/
inductive Poll (α : Type) where
  | Ready (a : α) : Poll α
  | Pending : Poll α
deriving Repr, DecidableEq

/-- A pooled transaction as seen by the miner; only its hash is consulted
(`anvil/src/eth/pool/transactions.rs`, used via `tx.hash()`). Hashes are
modelled as `Nat`. -/
structure PoolTransaction where
  hash : Nat
deriving Repr, DecidableEq

/-- State of `ReadyTransactionMiner` (instant mining mode): the
`max_transactions` bound, the accumulated set of ready transaction hashes
(`HashSet<TxHash>`), and the queued, not yet drained notifications of the
`rx` receiver channel. -/
structure ReadyTransactionMiner where
  max_transactions : Nat
  ready : Finset Nat
  rx : List Nat

/-- The accumulator after the `while let` drain loop at the top of
`ReadyTransactionMiner::poll`: every queued notification hash inserted
into `ready`. -/
def drainedReady (m : ReadyTransactionMiner) : Finset Nat :=
  m.rx.foldl (fun s h => insert h s) m.ready

/-- `ReadyTransactionMiner::poll`, given the pool's current ready
transaction list (the iterator `pool.ready_transactions()` in order):
drain the notification channel into `ready`; if `ready` is empty return
`Pending`; otherwise take at most `max_transactions` transactions from
the pool's ready list, remove their hashes from `ready`, and return them
as `Ready`. Returns the poll result together with the miner state after
the call. -/
def ReadyTransactionMiner.poll (m : ReadyTransactionMiner)
    (pool : List PoolTransaction) :
    Poll (List PoolTransaction) × ReadyTransactionMiner :=
  let ready1 := drainedReady m
  if ready1 = ∅ then
    (Poll.Pending, { m with ready := ready1, rx := [] })
  else
    let transactions := pool.take m.max_transactions
    let ready2 := transactions.foldl (fun s tx => s.erase tx.hash) ready1
    (Poll.Ready transactions, { m with ready := ready2, rx := [] })

/-- `FixedBlockTimeMiner::poll`, with the readiness of the interval
timer's `poll_tick` passed in as `tick`: on a tick, return the pool's
entire current ready list; otherwise `Pending`. -/
def FixedBlockTimeMiner.poll (tick : Bool) (pool : List PoolTransaction) :
    Poll (List PoolTransaction) :=
  if tick then Poll.Ready pool else Poll.Pending

end Miner

namespace Db

/-- `revm::AccountInfo`: balance (`U256`), nonce (`u64`), code hash
(`H256`, modelled as `Nat`), optional code bytes. -/
structure AccountInfo where
  balance : Nat
  nonce : Nat
  code_hash : Nat
  code : Option (List Nat)
deriving Repr, DecidableEq

section WithHash

/- The backend is parameterised by the keccak-256 hash function, which is
provided by an external cryptographic library; only the relations the
code establishes between `code` and `code_hash` matter here. -/
variable (keccak256 : List Nat → Nat)

/-- `KECCAK_EMPTY`: the keccak-256 hash of the empty byte string. -/
def KECCAK_EMPTY : Nat := keccak256 []

/-- The default `AccountInfo` returned for an absent account: zero
balance, zero nonce, empty code hash, no code. -/
def defaultAccountInfo : AccountInfo :=
  ⟨0, 0, KECCAK_EMPTY keccak256, none⟩

/-- An in-memory account store implementing the `Db` trait's `basic` /
`insert_account` interface, on which the trait's default methods
(`set_nonce`, `set_balance`, `set_code`) operate. Represented as an
association list from address (modelled as `Nat`) to `AccountInfo`;
newer insertions shadow older ones. -/
def MemDb : Type := List (Nat × AccountInfo)

/-- `DatabaseRef::basic`: the stored account, or the default info when
the address is absent. -/
def MemDb.basic (db : MemDb) (address : Nat) : AccountInfo :=
  match db.lookup address with
  | some info => info
  | none => defaultAccountInfo keccak256

/-- `Db::insert_account`: store `account` under `address`. -/
def MemDb.insert_account (db : MemDb) (address : Nat)
    (account : AccountInfo) : MemDb :=
  (address, account) :: db

/-- `Db::set_nonce` (trait default method): read the account with
`basic`, overwrite its nonce, store it back. -/
def MemDb.set_nonce (db : MemDb) (address : Nat) (nonce : Nat) : MemDb :=
  let info := MemDb.basic keccak256 db address
  MemDb.insert_account db address { info with nonce := nonce }

/-- `Db::set_balance` (trait default method): read the account with
`basic`, overwrite its balance, store it back. -/
def MemDb.set_balance (db : MemDb) (address : Nat) (balance : Nat) : MemDb :=
  let info := MemDb.basic keccak256 db address
  MemDb.insert_account db address { info with balance := balance }

/-- `Db::set_code` (trait default method): read the account with `basic`,
set its code hash to `KECCAK_EMPTY` for empty code and to the keccak-256
hash of the code otherwise, store the code, store the account back. -/
def MemDb.set_code (db : MemDb) (address : Nat) (code : List Nat) : MemDb :=
  let info := MemDb.basic keccak256 db address
  let code_hash :=
    if code.isEmpty then KECCAK_EMPTY keccak256 else keccak256 code
  MemDb.insert_account db address
    { info with code_hash := code_hash, code := some code }

/-- The account invariant of the data model: the stored code hash is the
configured hash of the stored code (absent code standing for empty
code). -/
def codeConsistent (info : AccountInfo) : Prop :=
  info.code_hash = keccak256 (info.code.getD [])

end WithHash

/-- `SerializableAccountRecord` from `anvil/src/eth/backend/db.rs`. -/
structure SerializableAccountRecord where
  nonce : Nat
  balance : Nat
  code : List Nat
  storage : List (Nat × Nat)
deriving Repr, DecidableEq

/-- `SerializableState` from `anvil/src/eth/backend/db.rs`. -/
structure SerializableState where
  accounts : List (Nat × SerializableAccountRecord)
deriving Repr, DecidableEq

/-- The state of `revm`'s `CacheDB<T>`: the cached account overlay over
an underlying read-only database of type `T`. -/
structure CacheDB (T : Type) where
  accounts : List (Nat × AccountInfo)
  db : T

/-- `Db::snapshot` for `CacheDB<T>`: returns `U256::zero()` and does not
touch the state. -/
def CacheDB.snapshot {T : Type} (c : CacheDB T) : Nat × CacheDB T :=
  (0, c)

/-- `Db::revert` for `CacheDB<T>`: returns `false` and does not touch the
state. -/
def CacheDB.revert {T : Type} (c : CacheDB T) (snapshot : Nat) :
    Bool × CacheDB T :=
  (false, c)

/-- `Db::dump_state` for `CacheDB<T>`: returns `None`. -/
def CacheDB.dump_state {T : Type} (c : CacheDB T) :
    Option SerializableState :=
  none

/-- `Db::load_state` for `CacheDB<T>`: returns `false` and does not touch
the state. -/
def CacheDB.load_state {T : Type} (c : CacheDB T)
    (buf : SerializableState) : Bool × CacheDB T :=
  (false, c)

end Db

/-! ## Helper lemmas and claim theorems -/

namespace Ipc

/-- Unfolding lemma: processing one byte then the rest. -/
theorem stateAfterPre_cons (st : ScanState) (idx : Nat) (b : Nat) (l : List Nat) :
    stateAfterPre st idx (b :: l) = stateAfterPre (scanStep st idx b) (idx + 1) l := rfl

/-- `find?` only depends on the values of the predicate on the list. -/
theorem find_congr {α : Type} (l : List α) (f g : α → Bool)
    (h : ∀ x ∈ l, f x = g x) : l.find? f = l.find? g := by
  induction l with
  | nil => rfl
  | cons a l ih =>
    have ha := h a (List.mem_cons_self a l)
    by_cases hfa : f a = true
    · rw [List.find?_cons_of_pos l hfa, List.find?_cons_of_pos l (ha ▸ hfa)]
    · rw [List.find?_cons_of_neg l hfa, List.find?_cons_of_neg l (by rw [← ha]; exact hfa)]
      exact ih (fun x hx => h x (List.mem_cons_of_mem a hx))

/-- The scan loop returns the first index (scanning from `idx` in state
`st`) at which the emission test holds on the accumulated scan state. -/
theorem findEmitGo_eq (buf : List Nat) : ∀ (idx : Nat) (st : ScanState),
    findEmitGo buf idx st =
      (List.range' idx buf.length).find?
        (fun i => emitCheck i (stateAfterPre st idx (buf.take (i + 1 - idx)))) := by
  induction buf with
  | nil => intro idx st; rfl
  | cons b rest ih =>
    intro idx st
    show (if emitCheck idx (scanStep st idx b) then some idx
          else findEmitGo rest (idx + 1) (scanStep st idx b)) = _
    have hlen : (b :: rest).length = rest.length + 1 := rfl
    rw [hlen]
    have hrange : List.range' idx (rest.length + 1) = idx :: List.range' (idx + 1) rest.length := rfl
    rw [hrange]
    have hfidx : emitCheck idx (stateAfterPre st idx ((b :: rest).take (idx + 1 - idx)))
        = emitCheck idx (scanStep st idx b) := by
      have h1 : idx + 1 - idx = 1 := by omega
      rw [h1]
      rfl
    by_cases hc : emitCheck idx (scanStep st idx b) = true
    · rw [if_pos hc, List.find?_cons_of_pos _ (by rw [hfidx]; exact hc)]
    · rw [if_neg hc, List.find?_cons_of_neg _ (by rw [hfidx]; exact hc)]
      rw [ih (idx + 1) (scanStep st idx b)]
      apply find_congr
      intro i hi
      have hle : idx + 1 ≤ i := (List.mem_range'_1.mp hi).1
      have h2 : i + 1 - idx = (i + 1 - (idx + 1)) + 1 := by omega
      rw [h2, List.take_succ_cons, stateAfterPre_cons]

/-- Claim C1, corrected. The claim states that a first frame whose bytes
are not valid UTF-8 makes `JsonRpcCodec::decode` return a decode error
(`Err`). In the code the `Err(_)` arm of `String::from_utf8` returns
`Ok(None)` instead, after `split_to` has already consumed the frame
bytes; `decode` has no error path at all. Amended: when the scan finds an
emission index whose frame bytes are not valid UTF-8, `decode` consumes
those bytes and returns `Ok(None)` (needs-more-bytes, no error), and
`decode` never returns an `Err` on any buffer. -/
theorem decode_invalid_utf8_yields_ok_none (buf : List Nat) (i : Nat)
    (h1 : findEmit buf = some i) (h2 : validUtf8 (buf.take (i + 1)) = false) :
    decode buf = (Except.ok none, buf.drop (i + 1))
    ∧ ∀ b : List Nat, (decode b).1 ≠ Except.error () := by
  constructor
  · simp [decode, h1, h2]
  · intro b
    rcases hfe : findEmit b with _ | j
    · simp [decode, hfe]
    · by_cases hv : validUtf8 (b.take (j + 1)) <;> simp [decode, hfe, hv]

/-- Witness for C1 amended: the buffer `7b ff 7d` (`{ 0xFF }`) emits at
index 2, its frame is not valid UTF-8, and `decode` returns `Ok(None)`
with the three bytes consumed. -/
theorem decode_invalid_utf8_witness :
    decode [123, 255, 125] = (Except.ok none, []) :=
  (decode_invalid_utf8_yields_ok_none [123, 255, 125] 2 rfl rfl).1

/-- Counterexample to C1 as stated: the buffer `7b ff 7d` contains a
first complete balanced frame (the whole buffer) that is not valid
UTF-8, yet `decode` returns `Ok(None)` — an `Ok` result, not the decode
error the claim requires. -/
theorem decode_invalid_utf8_not_error_cex :
    validUtf8 [123, 255, 125] = false ∧
    decode [123, 255, 125] = (Except.ok none, []) ∧
    (decode [123, 255, 125]).1 ≠ Except.error () := by
  refine ⟨rfl, rfl, ?_⟩
  have h : decode [123, 255, 125] = (Except.ok none, []) := rfl
  rw [h]
  simp

/-- Claim C2, corrected. The claim describes emission at the first index
`i` with `depth = 0`, content length `i + 1 - whitespaces > 0`, and at
least one opening brace or bracket observed. The code instead emits at
the first `i` with `depth = 0`, `i ≠ start_idx` and
`i - start_idx + 1 > whitespaces` (whitespace counted from the beginning
of the buffer, length from `start_idx`), which requires no opening
bracket at all. Amended: a frame is emitted exactly at the first byte
index satisfying the emission test of the code evaluated on the scan
state after that byte (`emitCond`); when no index satisfies it, `decode`
emits nothing and reports that more bytes are needed, leaving the buffer
untouched; at an emission index with valid UTF-8 the frame is bytes
`0..=i` and they are consumed. -/
theorem decode_emission_characterised (buf : List Nat) :
    findEmit buf = (List.range' 0 buf.length).find? (fun i => emitCond buf i)
    ∧ (findEmit buf = none → decode buf = (Except.ok none, buf))
    ∧ (∀ i, findEmit buf = some i → validUtf8 (buf.take (i + 1)) = true →
        decode buf = (Except.ok (some (buf.take (i + 1))), buf.drop (i + 1))) := by
  refine ⟨?_, ?_, ?_⟩
  · have h := findEmitGo_eq buf 0 initState
    simp only [Nat.sub_zero] at h
    exact h
  · intro h
    simp [decode, h]
  · intro i h1 h2
    simp [decode, h1, h2]

/-- Witness for C2 amended: a lone `{` yields needs-more-bytes with the
buffer untouched; `{}` is emitted whole. -/
theorem decode_emission_characterised_witness :
    decode [123] = (Except.ok none, [123]) ∧
    decode [123, 125] = (Except.ok (some [123, 125]), []) :=
  ⟨(decode_emission_characterised [123]).2.1 rfl,
   (decode_emission_characterised [123, 125]).2.2 1 rfl rfl⟩

/-- Counterexample to C2 as stated: the buffer `ab` (bytes 97, 98)
contains no opening brace or bracket, so under the claim no index
qualifies and nothing may be emitted; the code emits the frame `ab` at
index 1. -/
theorem decode_emits_without_open_bracket_cex :
    decode [97, 98] = (Except.ok (some [97, 98]), []) ∧
    (97 ≠ 123 ∧ 97 ≠ 91 ∧ 98 ≠ 123 ∧ 98 ≠ 91) := ⟨rfl, by decide⟩

/-- Claim C3, confirmed. Inside a quoted JSON string (`in_str = true`,
with any escape state, hence also right after a backslash escape), brace
and bracket bytes leave the tracked depth, the frame start index, the
whitespace count and the in-string flag unchanged; and decoding
`{"s":"}"}` yields exactly one frame containing the whole input. -/
theorem in_string_brackets_preserve_depth :
    (∀ (st : ScanState) (idx b : Nat), st.in_str = true →
        (b = 123 ∨ b = 125 ∨ b = 91 ∨ b = 93) →
        (scanStep st idx b).depth = st.depth ∧
        (scanStep st idx b).start_idx = st.start_idx ∧
        (scanStep st idx b).whitespaces = st.whitespaces ∧
        (scanStep st idx b).in_str = st.in_str)
    ∧ decode [123, 34, 115, 34, 58, 34, 125, 34, 125] =
        (Except.ok (some [123, 34, 115, 34, 58, 34, 125, 34, 125]), []) := by
  constructor
  · intro st idx b h1 h2
    rcases h2 with h | h | h | h <;> subst h <;>
      simp [scanStep, h1, is_whitespace]
  · rfl

/-- Witness for C3: a closing brace at index 6 inside a string (depth 1)
leaves depth and frame start unchanged. -/
theorem in_string_brackets_witness :
    (scanStep ⟨1, true, false, 0, 0⟩ 6 125).depth = 1 ∧
    (scanStep ⟨1, true, false, 0, 0⟩ 6 125).start_idx = 0 :=
  ⟨(in_string_brackets_preserve_depth.1 ⟨1, true, false, 0, 0⟩ 6 125 rfl
      (Or.inr (Or.inl rfl))).1,
   (in_string_brackets_preserve_depth.1 ⟨1, true, false, 0, 0⟩ 6 125 rfl
      (Or.inr (Or.inl rfl))).2.1⟩

end Ipc

namespace EthSerde

/-- Claim C4, corrected. The claim states that for single-parameter
variants, `params` given as the one-element array `[x]` and as the bare
value `x` both succeed with identical envelopes. `sequence::deserialize`
first deserializes a `Vec<T>`, which only accepts a JSON array, so the
bare form is rejected. Amended: for variants annotated
`#[serde(with = "sequence")]`, a one-element array `[x]` decodes exactly
as the inner deserializer decodes `x`, and any non-array `params` value
is rejected with a type error. -/
theorem sequence_singleton_unwraps :
    (∀ {α : Type} (inner : Json → Except String α) (j : Json),
        sequence_deserialize inner (Json.arr [j]) = inner j)
    ∧ (∀ {α : Type} (inner : Json → Except String α) (j : Json),
        (∀ xs, j ≠ Json.arr xs) →
        sequence_deserialize inner j =
          Except.error "invalid type: expected a sequence") := by
  constructor
  · intro α inner j
    cases h : inner j <;>
      simp [sequence_deserialize, vec_deserialize, mapExcept, h]
  · intro α inner j hj
    cases j with
    | arr xs => exact absurd rfl (hj xs)
    | _ => rfl

/-- Witness for C4 amended: with the identity inner deserializer, the
array form unwraps and the bare string form is rejected. -/
theorem sequence_singleton_unwraps_witness :
    sequence_deserialize Except.ok (Json.arr [Json.str "0x12ab"]) =
      Except.ok (Json.str "0x12ab")
    ∧ sequence_deserialize Except.ok (Json.str "0x12ab") =
      Except.error "invalid type: expected a sequence" :=
  ⟨sequence_singleton_unwraps.1 Except.ok (Json.str "0x12ab"),
   sequence_singleton_unwraps.2 Except.ok (Json.str "0x12ab")
     (fun xs h => Json.noConfusion h)⟩

/-- Counterexample to C4 as stated: for `eth_sendRawTransaction` (a
variant with exactly one positional parameter), `params = ["0x12ab"]`
decodes to the bytes `12 ab`, but the bare `params = "0x12ab"` is
rejected with a type error rather than producing the same envelope. -/
theorem sequence_bare_value_rejected_cex :
    eth_sendRawTransaction_params (Json.arr [Json.str "0x12ab"]) =
      Except.ok [0x12, 0xab]
    ∧ eth_sendRawTransaction_params (Json.str "0x12ab") =
      Except.error "invalid type: expected a sequence" := ⟨rfl, rfl⟩

/-- For any `u64`-sized natural number, `deserialize_number` accepts the
plain JSON integer form: the `U256` branch of the untagged enum fails on
a number and the `u64` branch accepts it. -/
theorem fee_u64_ok (n : Nat) (h : n < 18446744073709551616) :
    deserialize_number (Json.num n) = Except.ok n := by
  have h1 : (0 : Int) ≤ (n : Int) := Int.natCast_nonneg n
  have h2 : (n : Int) < 18446744073709551616 := by exact_mod_cast h
  have hu : u64_deserialize (Json.num n) = Except.ok n := by
    simp only [u64_deserialize]
    rw [if_pos ⟨h1, h2⟩, Int.toNat_natCast]
  have hstep : deserialize_number (Json.num n) =
      (u64_deserialize (Json.num n)).mapError
        (fun _ => "data did not match any variant of untagged enum Numeric") := rfl
  rw [hstep, hu]
  rfl

/-- Claim C5, confirmed. The `eth_feeHistory` first parameter decodes
from either a 256-bit hex quantity or a plain JSON integer:
`params [4, "latest", [25, 75]]` decodes to count 4, newest latest,
percentiles 25.0 and 75.0 (integer-valued, represented exactly), and
`params ["0x4", "latest", []]` decodes to count 4, newest latest, empty
percentiles; moreover every `u64`-sized plain integer is accepted by
`deserialize_number`. -/
theorem fee_history_params_decode :
    eth_feeHistory_params (Json.arr [Json.num 4, Json.str "latest",
        Json.arr [Json.num 25, Json.num 75]]) =
      Except.ok ⟨4, BlockNumber.Latest, [25, 75]⟩
    ∧ eth_feeHistory_params
        (Json.arr [Json.str "0x4", Json.str "latest", Json.arr []]) =
      Except.ok ⟨4, BlockNumber.Latest, []⟩
    ∧ (∀ n : Nat, n < 18446744073709551616 →
        deserialize_number (Json.num n) = Except.ok n) :=
  ⟨rfl, rfl, fee_u64_ok⟩

/-- Witness for C5: the bound of the general part discharged at 4. -/
theorem fee_history_params_decode_witness :
    deserialize_number (Json.num 4) = Except.ok 4 :=
  fee_history_params_decode.2.2 4 (by decide)

end EthSerde

namespace Miner

/-- Removing the hashes of a transaction list from a set by folding
`erase` is exactly set difference, membership-wise. -/
theorem mem_foldl_erase (l : List PoolTransaction) : ∀ (s : Finset Nat) (h : Nat),
    h ∈ l.foldl (fun s tx => s.erase tx.hash) s ↔
      h ∈ s ∧ h ∉ l.map PoolTransaction.hash := by
  induction l with
  | nil => intro s h; simp
  | cons tx l ih =>
    intro s h
    simp only [List.foldl_cons, List.map_cons, List.mem_cons]
    rw [ih]
    simp only [Finset.mem_erase]
    tauto

/-- Claim C6, confirmed. In instant mining mode, after draining the
pending notifications into the accumulator, `ReadyTransactionMiner::poll`
returns `Pending` whenever the accumulated ready-hash set is empty;
whenever it is non-empty, it returns the pool's current ready
transactions truncated to at most `max_transactions`, and the
accumulator afterwards holds exactly the drained hashes minus the hashes
of the transactions taken. -/
theorem ready_transaction_miner_poll_spec (m : ReadyTransactionMiner)
    (pool : List PoolTransaction) :
    (drainedReady m = ∅ → (m.poll pool).1 = Poll.Pending)
    ∧ (drainedReady m ≠ ∅ →
        (m.poll pool).1 = Poll.Ready (pool.take m.max_transactions)
        ∧ (pool.take m.max_transactions).length ≤ m.max_transactions
        ∧ (∀ h : Nat, h ∈ (m.poll pool).2.ready ↔
            h ∈ drainedReady m ∧
              h ∉ (pool.take m.max_transactions).map PoolTransaction.hash)) := by
  constructor
  · intro hd
    simp [ReadyTransactionMiner.poll, hd]
  · intro hd
    refine ⟨?_, List.length_take_le _ _, ?_⟩
    · simp [ReadyTransactionMiner.poll, hd]
    · intro h
      simp [ReadyTransactionMiner.poll, hd, mem_foldl_erase]

/-- Witness for C6: a miner with one notified hash 7 and the matching
pool entry yields that transaction and clears 7 from the accumulator; a
miner with nothing notified returns `Pending`. -/
theorem ready_transaction_miner_poll_witness :
    ((ReadyTransactionMiner.poll ⟨2, ∅, [7]⟩ [⟨7⟩]).1 = Poll.Ready [⟨7⟩]
      ∧ (7 ∈ (ReadyTransactionMiner.poll ⟨2, ∅, [7]⟩ [⟨7⟩]).2.ready ↔ False))
    ∧ (ReadyTransactionMiner.poll ⟨2, ∅, []⟩ [⟨7⟩]).1 = Poll.Pending := by
  constructor
  · have hd : drainedReady ⟨2, ∅, [7]⟩ ≠ (∅ : Finset Nat) := by decide
    have h := (ready_transaction_miner_poll_spec ⟨2, ∅, [7]⟩ [⟨7⟩]).2 hd
    refine ⟨h.1, ?_⟩
    rw [h.2.2 7]
    simp [drainedReady]
  · exact (ready_transaction_miner_poll_spec ⟨2, ∅, []⟩ [⟨7⟩]).1 (by decide)

/-- Claim C7, confirmed. In interval (fixed block time) mining mode,
`FixedBlockTimeMiner::poll` on a tick returns the entire current ready
set of the pool — including the empty set — and without a tick returns
`Pending`. -/
theorem fixed_block_time_miner_poll_spec (pool : List PoolTransaction) :
    FixedBlockTimeMiner.poll true pool = Poll.Ready pool
    ∧ FixedBlockTimeMiner.poll false pool = Poll.Pending
    ∧ FixedBlockTimeMiner.poll true [] = Poll.Ready [] :=
  ⟨rfl, rfl, rfl⟩

end Miner

namespace Db

/-- Looking up an address right after inserting an account for it yields
that account. -/
theorem lookup_insert_self (db : MemDb) (address : Nat) (info : AccountInfo) :
    List.lookup address (MemDb.insert_account db address info) = some info := by
  simp [MemDb.insert_account, List.lookup]

/-- Looking up a different address after an insertion is unaffected. -/
theorem lookup_insert_other (db : MemDb) (address other : Nat)
    (info : AccountInfo) (h : other ≠ address) :
    List.lookup other (MemDb.insert_account db address info) =
      List.lookup other db := by
  have hf : (other == address) = false := beq_eq_false_iff_ne.mpr h
  simp [MemDb.insert_account, List.lookup, hf]

/-- Claim C8, confirmed. After `set_code(address, code)`, the stored
account carries `code` and its `code_hash` is `KECCAK_EMPTY` (the hash
of the empty code) when `code` is empty and `keccak256(code)` otherwise;
in particular the invariant that `code_hash` is consistent with `code`
under the configured hash function holds for the stored account. -/
theorem set_code_hash_consistent (keccak256 : List Nat → Nat) (db : MemDb)
    (address : Nat) (code : List Nat) :
    (MemDb.basic keccak256 (MemDb.set_code keccak256 db address code)
        address).code_hash
      = (if code = [] then KECCAK_EMPTY keccak256 else keccak256 code)
    ∧ (MemDb.basic keccak256 (MemDb.set_code keccak256 db address code)
        address).code = some code
    ∧ codeConsistent keccak256
        (MemDb.basic keccak256 (MemDb.set_code keccak256 db address code)
          address) := by
  have hb : MemDb.basic keccak256 (MemDb.set_code keccak256 db address code)
      address
      = { MemDb.basic keccak256 db address with
          code_hash :=
            if code.isEmpty then KECCAK_EMPTY keccak256 else keccak256 code,
          code := some code } := by
    simp only [MemDb.set_code]
    simp [MemDb.basic, lookup_insert_self]
  refine ⟨?_, ?_, ?_⟩ <;> rw [hb] <;> cases code <;>
    simp [codeConsistent, KECCAK_EMPTY]

/-- Claim C9, confirmed. On the `CacheDB` copy-on-write overlay used for
pending-block construction, `snapshot` returns id zero and leaves the
state untouched (no layer boundary is recorded), `revert` returns
`false`, `dump_state` returns `None`, and `load_state` returns `false`,
for every overlay state and every argument. -/
theorem cachedb_overlay_stub_ops {T : Type} (c : CacheDB T) (s : Nat)
    (buf : SerializableState) :
    c.snapshot = (0, c) ∧ c.revert s = (false, c) ∧
    c.dump_state = none ∧ c.load_state buf = (false, c) :=
  ⟨rfl, rfl, rfl, rfl⟩

/-- Claim C10, confirmed. `set_nonce(a, n)` updates only the nonce field
of the account observed at `a` (balance, code hash and code are those of
the previous account) and leaves every other address unchanged;
symmetrically `set_balance(a, b)` updates only the balance field and
leaves every other address unchanged. -/
theorem set_nonce_set_balance_frame (keccak256 : List Nat → Nat) (db : MemDb)
    (address : Nat) (nonce balance : Nat) :
    MemDb.basic keccak256 (MemDb.set_nonce keccak256 db address nonce) address
      = { MemDb.basic keccak256 db address with nonce := nonce }
    ∧ (∀ other : Nat, other ≠ address →
        MemDb.basic keccak256 (MemDb.set_nonce keccak256 db address nonce)
            other
          = MemDb.basic keccak256 db other)
    ∧ MemDb.basic keccak256 (MemDb.set_balance keccak256 db address balance)
        address
      = { MemDb.basic keccak256 db address with balance := balance }
    ∧ (∀ other : Nat, other ≠ address →
        MemDb.basic keccak256 (MemDb.set_balance keccak256 db address balance)
            other
          = MemDb.basic keccak256 db other) := by
  refine ⟨?_, ?_, ?_, ?_⟩
  · simp only [MemDb.set_nonce]
    simp [MemDb.basic, lookup_insert_self]
  · intro other h
    simp only [MemDb.set_nonce]
    simp [MemDb.basic, lookup_insert_other _ _ _ _ h]
  · simp only [MemDb.set_balance]
    simp [MemDb.basic, lookup_insert_self]
  · intro other h
    simp only [MemDb.set_balance]
    simp [MemDb.basic, lookup_insert_other _ _ _ _ h]

/-- Witness for C10: setting the nonce of address 1 on the empty store
leaves the account at address 2 unchanged. -/
theorem set_nonce_set_balance_frame_witness :
    MemDb.basic (fun _ => 0)
        (MemDb.set_nonce (fun _ => 0) ([] : MemDb) 1 5) 2
      = MemDb.basic (fun _ => 0) ([] : MemDb) 2 :=
  (set_nonce_set_balance_frame (fun _ => 0) ([] : MemDb) 1 5 3).2.1 2
    (by decide)

end Db
